import Mathlib

/-!
# ThreadPool

A shallow embedding of `src/ThreadPool/src/ThreadPool.cpp` (class declared in
`src/ThreadPool/include/ThreadPool.h`) as a labelled transition system.

The pool is concurrent, so the embedding is a step function on an explicit
state: every thread has a program position, `queue_mutex` records its owner,
and every `Action` is one atomic piece of the code of one thread.  Code executed
while `queue_mutex` is held cannot interleave with any other access to `tasks`
or `stop` (all of them take the same mutex), so each critical section is split
into two actions only: taking the mutex, and the body that ends by releasing it.

`condition` is not part of the state.  `std::condition_variable::wait` may
return spuriously, so a worker blocked in `wait` may at any time re-acquire the
mutex and re-evaluate its predicate; `notify_one` / `notify_all` add no
behaviour to that, and the properties below are safety properties.

Three history lists (`accepted`, `dequeued`, `finished`) are ghost state: no
action reads them, they only record what happened.
-/

namespace ThreadPool

/-! ## Data model -/

/-- A submitted `std::function<void()>`.  The callable is opaque to the pool, so a
task is only a tag; what calling it does (return, throw) is chosen by the
actions `taskReturn` and `taskThrow`. -/
abbrev Task := Nat

/-- Which of the two handlers of lines 23-30 catches a failing task:
`catch (const std::exception&)` or `catch (...)`. -/
inductive ExcKind
  | stdException
  | unknown
  deriving DecidableEq

/-- Program position of one worker thread (the lambda of lines 6-32). -/
inductive Worker
  /-- Lines 8-11: at the top of the loop or blocked inside `condition.wait`; holds no mutex. -/
  | waiting
  /-- Lines 10-18: owns `queue_mutex` (fresh `unique_lock`, or re-acquired by `wait`). -/
  | locked
  /-- Line 21: `task()` is executing; the `unique_lock` of line 10 is out of scope. -/
  | running (t : Task)
  /-- Lines 23 / 27: an exception left `task()`, the handler has not yet taken the mutex. -/
  | caught (k : ExcKind)
  /-- Lines 24-25 / 28-29: the handler owns `queue_mutex` and writes to `std::cerr`. -/
  | logging (k : ExcKind)
  /-- Line 15: the thread function has returned. -/
  | terminated
  deriving DecidableEq

/-- Owner of `queue_mutex`. -/
inductive Holder
  /-- Worker thread number `i` (line 10, 24 or 28). -/
  | worker (i : Nat)
  /-- A thread inside `submit(t)` (line 39). -/
  | submitter (t : Task)
  /-- The thread running the destructor (line 53). -/
  | destructor
  deriving DecidableEq

/-- Program position of the thread that owns the pool object, relative to `~ThreadPool`. -/
inductive Dtor
  /-- The destructor has not been entered. -/
  | alive
  /-- Line 53: the destructor owns `queue_mutex`. -/
  | locked
  /-- Lines 57-59: `stop` is set; the first `k` threads of `workers` have been joined. -/
  | joining (k : Nat)
  /-- Line 60: the destructor has returned. -/
  | returned
  deriving DecidableEq

/-- The pool (members `workers`, `tasks`, `queue_mutex`, `stop` of `ThreadPool.h`),
the position of the destructor, and the ghost history. -/
structure State where
  /-- One entry per element of `std::vector<std::thread> workers`. -/
  workers : List Worker
  /-- Contents of `std::queue<std::function<void()>> tasks`, front first. -/
  tasks : List Task
  /-- Member `bool stop`. -/
  stop : Bool
  /-- Owner of `std::mutex queue_mutex`, if any. -/
  queue_mutex : Option Holder
  /-- Position of the destructor. -/
  dtor : Dtor
  /-- Ghost: tasks pushed by `submit` (line 45), in push order. -/
  accepted : List Task
  /-- Ghost: tasks removed by workers (lines 17-18), in removal order. -/
  dequeued : List Task
  /-- Ghost: tasks whose call `task()` (line 21) has ended, by return or by exception. -/
  finished : List Task
  deriving DecidableEq

/-- Value thrown by `submit`. -/
inductive SubmitError
  /-- A `std::runtime_error` carrying its `what()` text. -/
  | runtime_error (what : String)
  deriving DecidableEq

/-! ## Construction (lines 3-35) -/

/-- Largest value of the loop counter `int i`. -/
def INT_MAX : Nat := 2147483647

/-- The loop `for (int i = 0; i < ThreadCount; i++) workers.emplace_back(...)`.
`i` is never negative, so its conversion to `size_t` for the comparison keeps its
value.  Incrementing `i` past `INT_MAX` is signed overflow, which has no defined
result: `none`.  Every spawned thread starts at the top of its loop. -/
def spawnLoop (ThreadCount : Nat) (i : Nat) (workers : List Worker) : Option (List Worker) :=
  if i < ThreadCount then
    if i + 1 ≤ INT_MAX then spawnLoop ThreadCount (i + 1) (workers ++ [Worker.waiting])
    else none
  else some workers
termination_by ThreadCount - i

/-- The constructor `ThreadPool::ThreadPool(size_t ThreadCount)`: `tasks` starts empty,
`stop` is initialised to `false` (ThreadPool.h line 18), nobody owns the mutex. -/
def construct (ThreadCount : Nat) : Option State :=
  (spawnLoop ThreadCount 0 []).map fun ws =>
    { workers := ws, tasks := [], stop := false, queue_mutex := none, dtor := Dtor.alive,
      accepted := [], dequeued := [], finished := [] }

/-! ## submit (lines 37-49) -/

/-- Text of the error thrown at line 42. -/
def stoppedMessage : String := "ThreadPool is stopped!"

/-- Lines 41-46, run by the caller that owns `queue_mutex`: throw if `stop`, else
`tasks.emplace`; on both paths the `lock_guard` releases the mutex. -/
def submitBody (s : State) (t : Task) : Except SubmitError Unit × State :=
  if s.stop then
    (Except.error (SubmitError.runtime_error stoppedMessage), { s with queue_mutex := none })
  else
    (Except.ok (), { s with tasks := s.tasks ++ [t], queue_mutex := none,
                            accepted := s.accepted ++ [t] })

/-- A whole call `submit(t)` that finds the mutex free: line 39, then lines 41-46.
`none` when the mutex is owned by another thread (the caller blocks at line 39). -/
def submit (s : State) (t : Task) : Option (Except SubmitError Unit × State) :=
  if s.queue_mutex = none then
    some (submitBody { s with queue_mutex := some (Holder.submitter t) } t)
  else none

/-! ## Worker loop (lines 7-31) -/

/-- The predicate given to `condition.wait` (line 12). -/
def waitPredicate (s : State) : Bool := s.stop || !s.tasks.isEmpty

/-- Lines 11-19, run by worker `i` while it owns `queue_mutex`.
* predicate false: `wait` releases the mutex and blocks;
* `stop && tasks.empty()`: the thread function returns (line 15);
* otherwise `front()` / `pop()` (lines 17-18) and the lock goes out of scope.
`front()` on an empty queue would be undefined: `none`. -/
def workerBody (s : State) (i : Nat) : Option State :=
  if !waitPredicate s then
    some { s with workers := s.workers.set i Worker.waiting, queue_mutex := none }
  else if s.stop && s.tasks.isEmpty then
    some { s with workers := s.workers.set i Worker.terminated, queue_mutex := none }
  else
    match s.tasks with
    | [] => none
    | t :: rest =>
      some { s with workers := s.workers.set i (Worker.running t), tasks := rest,
                    queue_mutex := none, dequeued := s.dequeued ++ [t] }

/-! ## The transition system -/

/-- One atomic piece of the code of one thread. -/
inductive Action
  /-- Line 39: a caller of `submit(t)` takes the mutex. -/
  | submitLock (t : Task)
  /-- Lines 41-46: that caller throws or pushes, and releases the mutex. -/
  | submitBody
  /-- Line 10, or a wake-up inside `wait`: worker `i` takes the mutex. -/
  | workerLock (i : Nat)
  /-- Lines 11-19: worker `i` evaluates the predicate and blocks, returns or dequeues. -/
  | workerBody (i : Nat)
  /-- Line 21: the task of worker `i` returns normally. -/
  | taskReturn (i : Nat)
  /-- Line 21: the task of worker `i` throws; handler `k` catches it. -/
  | taskThrow (i : Nat) (k : ExcKind)
  /-- Line 24 / 28: the handler of worker `i` takes the mutex. -/
  | catchLock (i : Nat)
  /-- Line 25 / 29: the handler writes its message, releases the mutex, the loop repeats. -/
  | catchLog (i : Nat)
  /-- Line 53: the destructor takes the mutex. -/
  | dtorLock
  /-- Lines 54-55: `stop = true`, the mutex is released (line 57 follows). -/
  | dtorSet
  /-- Lines 58-59: `join` of the next worker returns, or the loop ends and the destructor returns. -/
  | dtorJoin
  deriving DecidableEq

/-- The effect of one action, `none` when the action is not enabled in `s`. -/
def step (s : State) : Action → Option State
  | Action.submitLock t =>
    if s.queue_mutex = none then some { s with queue_mutex := some (Holder.submitter t) }
    else none
  | Action.submitBody =>
    match s.queue_mutex with
    | some (Holder.submitter t) => some (submitBody s t).2
    | _ => none
  | Action.workerLock i =>
    match s.workers[i]?, s.queue_mutex with
    | some Worker.waiting, none =>
      some { s with workers := s.workers.set i Worker.locked,
                    queue_mutex := some (Holder.worker i) }
    | _, _ => none
  | Action.workerBody i =>
    match s.workers[i]? with
    | some Worker.locked => workerBody s i
    | _ => none
  | Action.taskReturn i =>
    match s.workers[i]? with
    | some (Worker.running t) =>
      some { s with workers := s.workers.set i Worker.waiting, finished := s.finished ++ [t] }
    | _ => none
  | Action.taskThrow i k =>
    match s.workers[i]? with
    | some (Worker.running t) =>
      some { s with workers := s.workers.set i (Worker.caught k),
                    finished := s.finished ++ [t] }
    | _ => none
  | Action.catchLock i =>
    match s.workers[i]?, s.queue_mutex with
    | some (Worker.caught k), none =>
      some { s with workers := s.workers.set i (Worker.logging k),
                    queue_mutex := some (Holder.worker i) }
    | _, _ => none
  | Action.catchLog i =>
    match s.workers[i]? with
    | some (Worker.logging _) =>
      some { s with workers := s.workers.set i Worker.waiting, queue_mutex := none }
    | _ => none
  | Action.dtorLock =>
    match s.dtor, s.queue_mutex with
    | Dtor.alive, none => some { s with dtor := Dtor.locked, queue_mutex := some Holder.destructor }
    | _, _ => none
  | Action.dtorSet =>
    match s.dtor with
    | Dtor.locked => some { s with stop := true, queue_mutex := none, dtor := Dtor.joining 0 }
    | _ => none
  | Action.dtorJoin =>
    match s.dtor with
    | Dtor.joining k =>
      if k < s.workers.length then
        if s.workers[k]? = some Worker.terminated then some { s with dtor := Dtor.joining (k + 1) }
        else none
      else some { s with dtor := Dtor.returned }
    | _ => none

/-- Run a schedule, action by action. -/
def run (s : State) : List Action → Option State
  | [] => some s
  | a :: rest => (step s a).bind fun s1 => run s1 rest

/-- States of a pool constructed with `N` workers, after any schedule. -/
inductive Reachable (N : Nat) : State → Prop
  | init {s : State} : construct N = some s → Reachable N s
  | step {s s1 : State} {a : Action} : Reachable N s → step s a = some s1 → Reachable N s1

/-- Tasks a worker currently holds: the one it is running, if any. -/
def heldBy : Worker → List Task
  | Worker.running t => [t]
  | _ => []

/-- Tasks held by the workers, in worker order. -/
def held (ws : List Worker) : List Task := ws.flatMap heldBy

/-- Number of entries of `ws` that are `terminated`. -/
def terminatedCount (ws : List Worker) : Nat := ws.count Worker.terminated

/-- The state right after construction with `N` workers (see `construct_eq`). -/
def fresh (N : Nat) : State :=
  { workers := List.replicate N Worker.waiting, tasks := [], stop := false, queue_mutex := none,
    dtor := Dtor.alive, accepted := [], dequeued := [], finished := [] }

/-! ## Invariants and example states -/

/-- A worker that has returned saw `stop` set and the queue empty, and both still hold. -/
def TermOk (s : State) : Prop :=
  ∀ j : Nat, s.workers[j]? = some Worker.terminated → s.stop = true ∧ s.tasks = []

/-- Whether the destructor is past line 54 (it has set `stop`). -/
def started : Dtor → Bool
  | Dtor.alive => false
  | Dtor.locked => false
  | _ => true

/-- How many of `n` worker threads the destructor has joined so far. -/
def joinedCount : Dtor → Nat → Nat
  | Dtor.joining k, _ => k
  | Dtor.returned, n => n
  | _, _ => 0

/-- The destructor position agrees with `stop`, and every joined worker has returned. -/
def DtorOk (s : State) : Prop :=
  s.stop = started s.dtor ∧
  joinedCount s.dtor s.workers.length ≤ s.workers.length ∧
  ∀ j : Nat, j < joinedCount s.dtor s.workers.length → s.workers[j]? = some Worker.terminated

/-- Whether a worker position is inside a scope that owns `queue_mutex`. -/
def holdsLock : Worker → Bool
  | Worker.locked => true
  | Worker.logging _ => true
  | _ => false

/-- Ownership recorded in `queue_mutex` agrees with the program positions. -/
def LockOk (s : State) : Prop :=
  (∀ (i : Nat) (w : Worker), s.workers[i]? = some w →
      (holdsLock w = true ↔ s.queue_mutex = some (Holder.worker i))) ∧
  (∀ i : Nat, s.queue_mutex = some (Holder.worker i) → i < s.workers.length) ∧
  (s.queue_mutex = some Holder.destructor ↔ s.dtor = Dtor.locked)

/-- All invariants of the transition system, for a pool constructed with `N` workers. -/
def Inv (N : Nat) (s : State) : Prop :=
  s.workers.length = N ∧
  s.accepted = s.dequeued ++ s.tasks ∧
  s.dequeued.Perm (held s.workers ++ s.finished) ∧
  TermOk s ∧ DtorOk s ∧ LockOk s

/-- A schedule for a pool of two workers: one task is submitted, worker 0 runs it and the
task throws, the destructor then stops the pool and joins both workers. -/
def shutdownSchedule : List Action :=
  [Action.submitLock 7, Action.submitBody, Action.workerLock 0, Action.workerBody 0,
   Action.taskThrow 0 ExcKind.stdException, Action.catchLock 0, Action.catchLog 0,
   Action.dtorLock, Action.dtorSet, Action.workerLock 1, Action.workerBody 1,
   Action.workerLock 0, Action.workerBody 0, Action.dtorJoin, Action.dtorJoin, Action.dtorJoin]

/-- The state `shutdownSchedule` ends in. -/
def shutdownState : State :=
  { workers := [Worker.terminated, Worker.terminated], tasks := [], stop := true,
    queue_mutex := none, dtor := Dtor.returned, accepted := [7], dequeued := [7],
    finished := [7] }

/-- A schedule for a pool of two workers: three tasks are submitted, worker 0 runs the
first to completion, worker 1 is running the second, the third is still queued. -/
def busySchedule : List Action :=
  [Action.submitLock 7, Action.submitBody, Action.submitLock 8, Action.submitBody,
   Action.workerLock 0, Action.workerBody 0, Action.submitLock 9, Action.submitBody,
   Action.taskReturn 0, Action.workerLock 1, Action.workerBody 1]

/-- The state `busySchedule` ends in. -/
def busyState : State :=
  { workers := [Worker.waiting, Worker.running 8], tasks := [9], stop := false,
    queue_mutex := none, dtor := Dtor.alive, accepted := [7, 8, 9], dequeued := [7, 8],
    finished := [7] }

/-- A state of a one-worker pool that is draining: the destructor has set `stop` and waits
in `join` while the worker is still running task 7. -/
def drainingState : State :=
  { workers := [Worker.running 7], tasks := [], stop := true, queue_mutex := none,
    dtor := Dtor.joining 0, accepted := [7], dequeued := [7], finished := [] }

/-- A state of a one-worker pool whose worker is running task 7. -/
def runningState : State :=
  { workers := [Worker.running 7], tasks := [], stop := false, queue_mutex := none,
    dtor := Dtor.alive, accepted := [7], dequeued := [7], finished := [] }

/-- A state of a one-worker pool whose worker owns the mutex at line 11; the queue holds
tasks 7 and 8. -/
def lockedState : State :=
  { workers := [Worker.locked], tasks := [7, 8], stop := false,
    queue_mutex := some (Holder.worker 0), dtor := Dtor.alive, accepted := [7, 8],
    dequeued := [], finished := [] }

/-- A state of a one-worker pool whose worker, after its task threw a `std::exception`,
owns the mutex inside the handler (lines 24-25). -/
def loggingState : State :=
  { workers := [Worker.logging ExcKind.stdException], tasks := [], stop := false,
    queue_mutex := some (Holder.worker 0), dtor := Dtor.alive, accepted := [7],
    dequeued := [7], finished := [7] }

/-- A state of a one-worker pool in which the destructor owns the mutex at line 53. -/
def dtorLockedState : State :=
  { workers := [Worker.waiting], tasks := [], stop := false,
    queue_mutex := some Holder.destructor, dtor := Dtor.locked, accepted := [],
    dequeued := [], finished := [] }

/-! ## Lemmas -/

theorem spawnLoop_eq (N : Nat) (hN : N ≤ INT_MAX) :
    ∀ (d i : Nat) (ws : List Worker), N - i = d → i ≤ N →
      spawnLoop N i ws = some (ws ++ List.replicate (N - i) Worker.waiting) := by
  intro d
  induction d with
  | zero =>
    intro i ws hd hi
    have hiN : ¬ i < N := by omega
    rw [spawnLoop, if_neg hiN, hd]
    simp
  | succ d ih =>
    intro i ws hd hi
    have hiN : i < N := by omega
    have hmax : i + 1 ≤ INT_MAX := by omega
    rw [spawnLoop, if_pos hiN, if_pos hmax, ih (i + 1) _ (by omega) (by omega)]
    have : N - i = (N - (i + 1)) + 1 := by omega
    rw [this, List.replicate_succ]
    simp

theorem construct_eq (N : Nat) (hN : N ≤ INT_MAX) : construct N = some (fresh N) := by
  unfold construct
  rw [spawnLoop_eq N hN (N - 0) 0 [] rfl (Nat.zero_le N)]
  simp [fresh]

theorem construct_workers {N : Nat} {s : State} (h : construct N = some s) :
    s = fresh N := by
  have key : ∀ (d i : Nat) (ws ws1 : List Worker), N - i = d → i ≤ N →
      spawnLoop N i ws = some ws1 → ws1 = ws ++ List.replicate (N - i) Worker.waiting := by
    intro d
    induction d with
    | zero =>
      intro i ws ws1 hd hi h1
      have hiN : ¬ i < N := by omega
      rw [spawnLoop, if_neg hiN] at h1
      simp at h1
      simp [hd, h1]
    | succ d ih =>
      intro i ws ws1 hd hi h1
      have hiN : i < N := by omega
      rw [spawnLoop, if_pos hiN] at h1
      split at h1
      · have h2 := ih (i + 1) _ ws1 (by omega) (by omega) h1
        have : N - i = (N - (i + 1)) + 1 := by omega
        rw [h2, this, List.replicate_succ]
        simp
      · simp at h1
  unfold construct at h
  cases hsp : spawnLoop N 0 [] with
  | none => simp [hsp] at h
  | some ws1 =>
    have h2 := key (N - 0) 0 [] ws1 rfl (Nat.zero_le N) hsp
    simp [hsp] at h
    subst h
    simp [fresh, h2]

theorem length_step {s s1 : State} {a : Action} (hs : step s a = some s1) :
    s1.workers.length = s.workers.length := by
  cases a <;> simp only [step, submitBody, workerBody] at hs <;>
    (repeat' split at hs) <;>
    simp only [Option.some.injEq, reduceCtorEq] at hs <;>
    subst hs <;> simp

theorem fifo_step {s s1 : State} {a : Action} (hs : step s a = some s1)
    (h : s.accepted = s.dequeued ++ s.tasks) : s1.accepted = s1.dequeued ++ s1.tasks := by
  cases a <;> simp only [step, submitBody, workerBody] at hs <;>
    (repeat' split at hs) <;>
    simp only [Option.some.injEq, reduceCtorEq] at hs <;>
    subst hs <;> simp_all

theorem held_cons (x : Worker) (xs : List Worker) : held (x :: xs) = heldBy x ++ held xs := by
  simp [held]

theorem heldBy_set (w : Worker) :
    ∀ (ws : List Worker) (i : Nat) (w0 : Worker), ws[i]? = some w0 →
      (heldBy w0 ++ held (ws.set i w)).Perm (heldBy w ++ held ws) := by
  intro ws
  induction ws with
  | nil => intro i w0 h; simp at h
  | cons x xs ih =>
    intro i w0 h
    cases i with
    | zero =>
      simp at h
      subst h
      rw [List.set_cons_zero, held_cons, held_cons]
      exact List.perm_append_comm_assoc _ _ _
    | succ j =>
      simp at h
      have h1 := ih j w0 h
      rw [List.set_cons_succ, held_cons, held_cons]
      exact ((List.perm_append_comm_assoc _ _ _).trans (List.Perm.append_left _ h1)).trans
        (List.perm_append_comm_assoc _ _ _)

theorem perm_set {ws : List Worker} {i : Nat} {w0 : Worker} (w : Worker) {dq fin : List Task}
    (hi : ws[i]? = some w0) (h : dq.Perm (held ws ++ fin)) :
    (dq ++ heldBy w).Perm (held (ws.set i w) ++ (fin ++ heldBy w0)) := by
  have h1 : (dq ++ heldBy w).Perm ((heldBy w ++ held ws) ++ fin) := by
    rw [List.append_assoc]
    exact List.perm_append_comm.trans (List.Perm.append_left _ h)
  have h2 : ((heldBy w ++ held ws) ++ fin).Perm ((heldBy w0 ++ held (ws.set i w)) ++ fin) :=
    List.Perm.append_right _ (heldBy_set w ws i w0 hi).symm
  have h3 : ((heldBy w0 ++ held (ws.set i w)) ++ fin).Perm
      (held (ws.set i w) ++ (fin ++ heldBy w0)) := by
    rw [List.append_assoc]
    exact List.perm_append_comm.trans (by rw [List.append_assoc])
  exact (h1.trans h2).trans h3

theorem perm_idle {ws : List Worker} {i : Nat} {w0 w : Worker} {dq fin : List Task}
    (hi : ws[i]? = some w0) (h0 : heldBy w0 = []) (hw : heldBy w = [])
    (h : dq.Perm (held ws ++ fin)) : dq.Perm (held (ws.set i w) ++ fin) := by
  have := perm_set w hi h
  simpa [h0, hw] using this

theorem perm_dequeue {ws : List Worker} {i : Nat} {w0 : Worker} {t : Task} {dq fin : List Task}
    (hi : ws[i]? = some w0) (h0 : heldBy w0 = [])
    (h : dq.Perm (held ws ++ fin)) :
    (dq ++ [t]).Perm (held (ws.set i (Worker.running t)) ++ fin) := by
  have h1 := perm_set (Worker.running t) hi h
  have h2 : heldBy (Worker.running t) = [t] := rfl
  rw [h0, h2] at h1
  simpa using h1

theorem perm_finish {ws : List Worker} {i : Nat} {w : Worker} {t : Task} {dq fin : List Task}
    (hi : ws[i]? = some (Worker.running t)) (hw : heldBy w = [])
    (h : dq.Perm (held ws ++ fin)) :
    dq.Perm (held (ws.set i w) ++ (fin ++ [t])) := by
  have h1 := perm_set w hi h
  have h2 : heldBy (Worker.running t) = [t] := rfl
  rw [hw, h2] at h1
  simpa using h1

theorem perm_step {s s1 : State} {a : Action} (hs : step s a = some s1)
    (h : s.dequeued.Perm (held s.workers ++ s.finished)) :
    s1.dequeued.Perm (held s1.workers ++ s1.finished) := by
  cases a <;> simp only [step, submitBody, workerBody] at hs <;>
    (repeat' split at hs) <;>
    simp only [Option.some.injEq, reduceCtorEq] at hs <;>
    subst hs <;>
    first
      | exact h
      | exact perm_idle (by assumption) (by rfl) (by rfl) h
      | exact perm_dequeue (by assumption) (by rfl) h
      | exact perm_finish (by assumption) (by rfl) h

theorem set_cases {ws : List Worker} {i j : Nat} {a w : Worker}
    (h : (ws.set i a)[j]? = some w) : (i = j ∧ w = a) ∨ (i ≠ j ∧ ws[j]? = some w) := by
  rw [List.getElem?_set] at h
  by_cases hij : i = j
  · rw [if_pos hij] at h
    split at h
    · left; exact ⟨hij, by simpa using h.symm⟩
    · simp at h
  · rw [if_neg hij] at h
    exact Or.inr ⟨hij, h⟩

theorem set_keeps {ws : List Worker} {i j : Nat} {w0 w : Worker}
    (hi : ws[i]? = some w0) (h0 : w0 ≠ Worker.terminated)
    (hj : ws[j]? = some Worker.terminated) : (ws.set i w)[j]? = some Worker.terminated := by
  have hij : i ≠ j := by
    intro e
    subst e
    rw [hi] at hj
    exact h0 (by simpa using hj)
  rw [List.getElem?_set_ne hij]
  exact hj

theorem termOk_step {s s1 : State} {a : Action} (hs : step s a = some s1)
    (h : TermOk s) : TermOk s1 := by
  unfold TermOk at h ⊢
  cases a <;> simp only [step, submitBody, workerBody, waitPredicate] at hs <;>
    (repeat' split at hs) <;>
    simp only [Option.some.injEq, reduceCtorEq] at hs <;>
    subst hs <;> intro j hj <;> simp only at hj ⊢ <;>
    first
      | exact h j hj
      | (have h1 := h j hj; simp_all)
      | (rcases set_cases hj with ⟨_, h2⟩ | ⟨_, h2⟩
         · first | (simp at h2; done) | simp_all
         · have h1 := h j h2
           simp_all)

theorem dtorOk_step {s s1 : State} {a : Action} (hs : step s a = some s1)
    (h : DtorOk s) : DtorOk s1 := by
  obtain ⟨h1, h2, h3⟩ := h
  unfold DtorOk
  cases a <;> simp only [step, submitBody, workerBody, waitPredicate] at hs <;>
    (repeat' split at hs) <;>
    simp only [Option.some.injEq, reduceCtorEq] at hs <;>
    subst hs <;> simp only [List.length_set] <;>
    first
      | exact ⟨h1, h2, h3⟩
      | exact ⟨h1, h2, fun j hj => set_keeps (by assumption) (by simp) (h3 j hj)⟩
      | (simp_all [started, joinedCount]; done)
      | (rename_i k hk hterm
         simp_all only [started, joinedCount]
         refine ⟨trivial, hk, fun j hj => ?_⟩
         rcases Nat.lt_succ_iff_lt_or_eq.mp hj with hlt | heq
         · exact h3 j hlt
         · rw [heq]; exact hterm)
      | (rename_i k hk
         simp_all only [started, joinedCount]
         refine ⟨trivial, le_refl _, fun j hj => h3 j (by omega)⟩)

theorem lt_of_getElem? {ws : List Worker} {i : Nat} {w : Worker} (h : ws[i]? = some w) :
    i < ws.length := by
  by_contra hn
  rw [List.getElem?_eq_none (by omega)] at h
  simp at h

theorem lockOk_step {s s1 : State} {a : Action} (hs : step s a = some s1)
    (h : LockOk s) : LockOk s1 := by
  obtain ⟨h1, h0, h2⟩ := h
  unfold LockOk
  cases a <;> simp only [step, submitBody, workerBody, waitPredicate] at hs <;>
    (repeat' split at hs) <;>
    simp only [Option.some.injEq, reduceCtorEq] at hs <;>
    subst hs <;> simp only [List.length_set] <;>
    refine ⟨fun j w hw => ?_, fun j hj => ?_, ?_⟩ <;>
    first
      | exact h0 j hj
      | (simp at hj; done)
      | (simp only [Option.some.injEq, Holder.worker.injEq] at hj
         subst hj
         exact lt_of_getElem? (by assumption))
      | (simp_all; done)
      | (have h3 := h1 j w hw; simp_all; done)
      | (have h4 := h1 _ _ (by assumption); simp_all [holdsLock]; done)
      | (have h4 := h1 _ _ (by assumption)
         rcases set_cases hw with ⟨e, rfl⟩ | ⟨ne, hw1⟩
         · simp_all [holdsLock]
         · have h3 := h1 j w hw1
           simp_all [holdsLock])

theorem held_replicate_waiting (N : Nat) : held (List.replicate N Worker.waiting) = [] := by
  induction N with
  | zero => rfl
  | succ n ih => rw [List.replicate_succ, held_cons, ih]; rfl

theorem inv_fresh (N : Nat) : Inv N (fresh N) := by
  refine ⟨by simp [fresh], by simp [fresh], ?_, ?_, ?_, ?_, ?_, ?_⟩
  · simp [fresh, held_replicate_waiting]
  · intro j hj
    simp [fresh, List.getElem?_replicate] at hj
  · simp [DtorOk, fresh, started, joinedCount]
  · intro i w hw
    simp only [fresh, List.getElem?_replicate] at hw
    split at hw
    · simp only [Option.some.injEq] at hw
      subst hw
      simp [fresh, holdsLock]
    · simp at hw
  · simp [fresh]
  · simp [fresh]

theorem inv_step {N : Nat} {s s1 : State} {a : Action} (hs : step s a = some s1)
    (h : Inv N s) : Inv N s1 := by
  obtain ⟨h1, h2, h3, h4, h5, h6⟩ := h
  exact ⟨(length_step hs).trans h1, fifo_step hs h2, perm_step hs h3, termOk_step hs h4,
    dtorOk_step hs h5, lockOk_step hs h6⟩

theorem inv_reachable {N : Nat} {s : State} (h : Reachable N s) : Inv N s := by
  induction h with
  | init h0 => rw [construct_workers h0]; exact inv_fresh N
  | step _ hs ih => exact inv_step hs ih

theorem reachable_run {N : Nat} (acts : List Action) :
    ∀ {s s1 : State}, Reachable N s → run s acts = some s1 → Reachable N s1 := by
  induction acts with
  | nil =>
    intro s s1 h hr
    simp only [run, Option.some.injEq] at hr
    exact hr ▸ h
  | cons a rest ih =>
    intro s s1 h hr
    simp only [run] at hr
    cases hst : step s a with
    | none => simp [hst] at hr
    | some s2 =>
      rw [hst] at hr
      exact ih (Reachable.step h hst) hr

theorem terminated_stays {s s1 : State} {a : Action} {i : Nat} (hs : step s a = some s1)
    (h : s.workers[i]? = some Worker.terminated) : s1.workers[i]? = some Worker.terminated := by
  cases a <;> simp only [step, submitBody, workerBody, waitPredicate] at hs <;>
    (repeat' split at hs) <;>
    simp only [Option.some.injEq, reduceCtorEq] at hs <;>
    subst hs <;>
    first
      | exact h
      | exact set_keeps (by assumption) (by simp) h

theorem terminates_only_from_locked {s s1 : State} {a : Action} {i : Nat}
    (hs : step s a = some s1) (h1 : s1.workers[i]? = some Worker.terminated) :
    s.workers[i]? = some Worker.terminated ∨
      (a = Action.workerBody i ∧ s.workers[i]? = some Worker.locked ∧
        s.stop = true ∧ s.tasks = []) := by
  cases a <;> simp only [step, submitBody, workerBody, waitPredicate] at hs <;>
    (repeat' split at hs) <;>
    simp only [Option.some.injEq, reduceCtorEq] at hs <;>
    subst hs <;> simp only at h1 <;>
    first
      | exact Or.inl h1
      | (rcases set_cases h1 with ⟨e, h2⟩ | ⟨_, h2⟩
         · first | (simp at h2; done) | (subst e; right; simp_all)
         · exact Or.inl h2)

theorem all_terminated {ws : List Worker}
    (h : ∀ j : Nat, j < ws.length → ws[j]? = some Worker.terminated) :
    ws = List.replicate ws.length Worker.terminated := by
  apply List.ext_getElem?
  intro j
  rw [List.getElem?_replicate]
  split
  · rename_i hj; exact h j hj
  · rename_i hj; exact List.getElem?_eq_none (by omega)

theorem held_replicate_terminated (N : Nat) : held (List.replicate N Worker.terminated) = [] := by
  induction N with
  | zero => rfl
  | succ n ih => rw [List.replicate_succ, held_cons, ih]; rfl

theorem returned_all_done {N : Nat} {s : State} (hN : 1 ≤ N) (h : Reachable N s)
    (hret : s.dtor = Dtor.returned) :
    s.tasks = [] ∧ s.workers = List.replicate N Worker.terminated ∧
      terminatedCount s.workers = N ∧ s.finished.Perm s.accepted := by
  obtain ⟨hlen, hfifo, hperm, hterm, hdtor, _⟩ := inv_reachable h
  obtain ⟨_, _, hall⟩ := hdtor
  rw [hret] at hall
  have hws : s.workers = List.replicate N Worker.terminated := by
    have := all_terminated hall
    rwa [hlen] at this
  have htasks : s.tasks = [] := (hterm 0 (hall 0 (by simp only [joinedCount]; omega))).2
  refine ⟨htasks, hws, ?_, ?_⟩
  · rw [hws]
    simp [terminatedCount]
  · rw [hws, held_replicate_terminated, List.nil_append] at hperm
    rw [hfifo, htasks, List.append_nil]
    exact hperm.symm

theorem spawnLoop_overflow (N : Nat) (hN : INT_MAX < N) :
    ∀ (d i : Nat) (ws : List Worker), INT_MAX - i = d → i ≤ INT_MAX →
      spawnLoop N i ws = none := by
  intro d
  induction d with
  | zero =>
    intro i ws hd hi
    have hiN : i < N := by omega
    have hmax : ¬ i + 1 ≤ INT_MAX := by omega
    rw [spawnLoop, if_pos hiN, if_neg hmax]
  | succ d ih =>
    intro i ws hd hi
    have hiN : i < N := by omega
    have hmax : i + 1 ≤ INT_MAX := by omega
    rw [spawnLoop, if_pos hiN, if_pos hmax]
    exact ih (i + 1) _ (by omega) hmax

theorem construct_overflow (N : Nat) (hN : INT_MAX < N) : construct N = none := by
  unfold construct
  rw [spawnLoop_overflow N hN (INT_MAX - 0) 0 [] rfl (Nat.zero_le _)]
  rfl

theorem mutex_release_enabled {N : Nat} {s : State} (h : Reachable N s)
    (hm : s.queue_mutex ≠ none) :
    ∃ (a : Action) (s1 : State), step s a = some s1 ∧ s1.queue_mutex = none := by
  obtain ⟨_, _, _, _, _, h1, h0, h2⟩ := inv_reachable h
  cases hq : s.queue_mutex with
  | none => exact absurd hq hm
  | some o =>
    cases o with
    | submitter t =>
      refine ⟨Action.submitBody, (submitBody s t).2, by simp [step, hq], ?_⟩
      unfold submitBody
      split <;> rfl
    | destructor =>
      have hd := h2.mp hq
      have hs : step s Action.dtorSet =
          some { s with stop := true, queue_mutex := none, dtor := Dtor.joining 0 } := by
        simp only [step, hd]
      exact ⟨_, _, hs, rfl⟩
    | worker i =>
      have hi := h0 i hq
      have hw : s.workers[i]? = some s.workers[i] := List.getElem?_eq_getElem hi
      have h3 := (h1 i _ hw).mpr hq
      cases hwi : s.workers[i] with
      | locked =>
        rw [hwi] at hw
        cases ht : s.tasks with
        | nil =>
          cases hst : s.stop
          · have hs : step s (Action.workerBody i) =
                some { s with workers := s.workers.set i Worker.waiting, queue_mutex := none } := by
              simp [step, hw, workerBody, waitPredicate, ht, hst]
            exact ⟨_, _, hs, rfl⟩
          · have hs : step s (Action.workerBody i) =
                some { s with workers := s.workers.set i Worker.terminated,
                              queue_mutex := none } := by
              simp [step, hw, workerBody, waitPredicate, ht, hst]
            exact ⟨_, _, hs, rfl⟩
        | cons t rest =>
          have hs : step s (Action.workerBody i) =
              some { s with workers := s.workers.set i (Worker.running t), tasks := rest,
                            queue_mutex := none, dequeued := s.dequeued ++ [t] } := by
            simp [step, hw, workerBody, waitPredicate, ht]
          exact ⟨_, _, hs, rfl⟩
      | logging k =>
        rw [hwi] at hw
        have hs : step s (Action.catchLog i) =
            some { s with workers := s.workers.set i Worker.waiting, queue_mutex := none } := by
          simp [step, hw]
        exact ⟨_, _, hs, rfl⟩
      | waiting => rw [hwi] at h3; simp [holdsLock] at h3
      | running t => rw [hwi] at h3; simp [holdsLock] at h3
      | caught k => rw [hwi] at h3; simp [holdsLock] at h3
      | terminated => rw [hwi] at h3; simp [holdsLock] at h3

/-- The shutdown schedule is a run of a two-worker pool. -/
theorem shutdownState_reachable : Reachable 2 shutdownState :=
  reachable_run shutdownSchedule (Reachable.init (construct_eq 2 (by decide))) (by decide)

/-- C1 (drain on shutdown): in every reachable state of a pool constructed with `N ≥ 1`
workers, if the destructor has returned then the queue is empty, every one of the `N`
workers is terminated, and the finished tasks are exactly the accepted ones; and in every
reachable state a terminated worker implies that `stop` is true and the queue is empty. -/
theorem drain_on_shutdown (N : Nat) (s : State) (hN : 1 ≤ N) (h : Reachable N s) :
    (s.dtor = Dtor.returned →
      s.tasks = [] ∧ s.workers = List.replicate N Worker.terminated ∧
      terminatedCount s.workers = N ∧ s.finished.Perm s.accepted) ∧
    ((∃ i : Nat, s.workers[i]? = some Worker.terminated) → s.stop = true ∧ s.tasks = []) := by
  exact ⟨fun hret => returned_all_done hN h hret, fun ⟨i, hi⟩ => (inv_reachable h).2.2.2.1 i hi⟩

/-- C1 on a concrete run of a two-worker pool: one task, which throws, then shutdown. -/
theorem drain_on_shutdown_witness :
    1 ≤ 2 ∧ Reachable 2 shutdownState ∧
      shutdownState.dtor = Dtor.returned ∧ shutdownState.tasks = [] ∧
      shutdownState.workers = List.replicate 2 Worker.terminated ∧
      terminatedCount shutdownState.workers = 2 ∧
      shutdownState.finished.Perm shutdownState.accepted :=
  ⟨by decide, shutdownState_reachable, rfl,
    (drain_on_shutdown 2 shutdownState (by decide) shutdownState_reachable).1 rfl⟩

/-- The busy schedule is a run of a two-worker pool. -/
theorem busyState_reachable : Reachable 2 busyState :=
  reachable_run busySchedule (Reachable.init (construct_eq 2 (by decide))) (by decide)

theorem mem_held_of_running {t : Task} :
    ∀ (ws : List Worker) (i : Nat), ws[i]? = some (Worker.running t) → t ∈ held ws := by
  intro ws
  induction ws with
  | nil => intro i h; simp at h
  | cons x xs ih =>
    intro i h
    rw [held_cons, List.mem_append]
    cases i with
    | zero =>
      simp only [List.getElem?_cons_zero, Option.some.injEq] at h
      subst h
      left
      simp [heldBy]
    | succ j =>
      simp only [List.getElem?_cons_succ] at h
      exact Or.inr (ih j h)

theorem running_unique {t : Task} :
    ∀ (ws : List Worker) (i j : Nat), (held ws).Nodup → ws[i]? = some (Worker.running t) →
      ws[j]? = some (Worker.running t) → i = j := by
  intro ws
  induction ws with
  | nil => intro i j _ h; simp at h
  | cons x xs ih =>
    intro i j hnd hi hj
    rw [held_cons, List.nodup_append] at hnd
    obtain ⟨_, hxs, hdis⟩ := hnd
    cases i with
    | zero =>
      cases j with
      | zero => rfl
      | succ j =>
        simp only [List.getElem?_cons_zero, Option.some.injEq] at hi
        simp only [List.getElem?_cons_succ] at hj
        subst hi
        exact absurd (mem_held_of_running xs j hj) (hdis (by simp [heldBy]))
    | succ i =>
      cases j with
      | zero =>
        simp only [List.getElem?_cons_zero, Option.some.injEq] at hj
        simp only [List.getElem?_cons_succ] at hi
        subst hj
        exact absurd (mem_held_of_running xs i hi) (hdis (by simp [heldBy]))
      | succ j =>
        simp only [List.getElem?_cons_succ] at hi hj
        rw [ih i j hxs hi hj]

theorem accepted_perm {N : Nat} {s : State} (h : Reachable N s) :
    s.accepted.Perm (s.tasks ++ held s.workers ++ s.finished) := by
  obtain ⟨_, hfifo, hperm, _⟩ := inv_reachable h
  rw [hfifo, List.append_assoc]
  exact List.perm_append_comm.trans (List.Perm.append_left _ hperm)

/-- C2 (no task is executed twice or by two workers): in every reachable state of a pool
with any number `N` of workers (so in particular `N ≥ 1`), the accepted tasks are, as a
multiset, the queued tasks plus the tasks being run plus the finished tasks; the number of
accepted tasks is queue length + tasks being run + tasks finished; no task is dequeued more
often than it was accepted; and when the accepted tasks are pairwise distinct, no task was
dequeued twice, no task is in two places, and no task is run by two workers. -/
theorem no_double_execution (N : Nat) (s : State) (h : Reachable N s) :
    s.accepted.Perm (s.tasks ++ held s.workers ++ s.finished) ∧
    s.accepted.length = s.tasks.length + (held s.workers).length + s.finished.length ∧
    (∀ t : Task, s.dequeued.count t ≤ s.accepted.count t) ∧
    (s.accepted.Nodup →
      s.dequeued.Nodup ∧ (s.tasks ++ held s.workers ++ s.finished).Nodup ∧
      ∀ (i j : Nat) (t : Task), s.workers[i]? = some (Worker.running t) →
        s.workers[j]? = some (Worker.running t) → i = j) := by
  have hp := accepted_perm h
  obtain ⟨_, hfifo, hperm, _⟩ := inv_reachable h
  refine ⟨hp, ?_, ?_, ?_⟩
  · have := hp.length_eq
    rw [List.length_append, List.length_append] at this
    exact this
  · intro t
    rw [hfifo, List.count_append]
    exact Nat.le_add_right _ _
  · intro hnd
    have hnd2 : (s.tasks ++ held s.workers ++ s.finished).Nodup := (hp.nodup_iff).mp hnd
    refine ⟨?_, hnd2, ?_⟩
    · rw [hfifo] at hnd
      exact (List.nodup_append.mp hnd).1
    · intro i j t hi hj
      have h3 : (held s.workers).Nodup := by
        have := (List.nodup_append.mp hnd2).1
        exact (List.nodup_append.mp this).2.1
      exact running_unique s.workers i j h3 hi hj

/-- C2 on a concrete state: one task finished, one running, one queued. -/
theorem no_double_execution_witness :
    Reachable 2 busyState ∧
      busyState.accepted.length =
        busyState.tasks.length + (held busyState.workers).length + busyState.finished.length ∧
      busyState.dequeued.Nodup :=
  ⟨busyState_reachable, (no_double_execution 2 busyState busyState_reachable).2.1,
    ((no_double_execution 2 busyState busyState_reachable).2.2.2 (by decide)).1⟩

/-- C3 (FIFO dequeue order): in every reachable state the tasks removed from the queue, in
removal order, followed by the current queue contents, are the accepted tasks in acceptance
order; so the `j`-th removal is the `j`-th accepted task, and when the `k`-th accepted task
has been dequeued every task accepted before it was dequeued before it. -/
theorem fifo_dequeue_order (N : Nat) (s : State) (h : Reachable N s) :
    s.dequeued ++ s.tasks = s.accepted ∧
    (∀ j : Nat, j < s.dequeued.length → s.dequeued[j]? = s.accepted[j]?) ∧
    (∀ j k : Nat, j < k → k < s.dequeued.length →
      j < s.dequeued.length ∧ s.dequeued[j]? = s.accepted[j]? ∧
        s.dequeued[k]? = s.accepted[k]?) := by
  obtain ⟨_, hfifo, _⟩ := inv_reachable h
  have key : ∀ j : Nat, j < s.dequeued.length → s.dequeued[j]? = s.accepted[j]? := by
    intro j hj
    rw [hfifo, List.getElem?_append_left hj]
  exact ⟨hfifo.symm, key, fun j k hjk hk => ⟨by omega, key j (by omega), key k hk⟩⟩

/-- C3 on a concrete state: tasks 7, 8 dequeued in that order, task 9 still queued. -/
theorem fifo_dequeue_order_witness :
    Reachable 2 busyState ∧ busyState.dequeued ++ busyState.tasks = busyState.accepted :=
  ⟨busyState_reachable, (fifo_dequeue_order 2 busyState busyState_reachable).1⟩

/-- C4 (post-stop rejection): when `stop` is true, the body of `submit` throws
`std::runtime_error("ThreadPool is stopped!")` and changes nothing but the mutex it
releases; a whole call that finds the mutex free returns that error and leaves the state
exactly as it was; in the transition system the step leaves queue, `stop`, workers and the
accepted list as they were, so the queue length does not increase; and a mutex that is
owned can always be released by its owner, so the caller is not blocked for ever. -/
theorem submit_rejected_after_stop (s : State) (t : Task) (hstop : s.stop = true) :
    stoppedMessage = "ThreadPool is stopped!" ∧
    submitBody s t =
      (Except.error (SubmitError.runtime_error stoppedMessage), { s with queue_mutex := none }) ∧
    (s.queue_mutex = none →
      submit s t = some (Except.error (SubmitError.runtime_error stoppedMessage), s)) ∧
    (∀ s1 : State, s.queue_mutex = some (Holder.submitter t) →
      step s Action.submitBody = some s1 →
        s1.tasks = s.tasks ∧ s1.stop = s.stop ∧ s1.workers = s.workers ∧
        s1.accepted = s.accepted ∧ s1.tasks.length = s.tasks.length) ∧
    (∀ N : Nat, Reachable N s → s.queue_mutex ≠ none →
      ∃ (a : Action) (s1 : State), step s a = some s1 ∧ s1.queue_mutex = none) := by
  refine ⟨rfl, ?_, ?_, ?_, fun N h hm => mutex_release_enabled h hm⟩
  · simp [submitBody, hstop]
  · intro hm
    cases s
    simp only at hm hstop
    subst hm
    subst hstop
    simp [submit, submitBody]
  · intro s1 hm hs
    simp only [step, hm, submitBody, hstop, if_true, Option.some.injEq] at hs
    subst hs
    simp [hstop]

/-- C4 on a draining pool: `submit(5)` is rejected and the state is as before. -/
theorem submit_rejected_after_stop_witness :
    drainingState.stop = true ∧
      submit drainingState 5 =
        some (Except.error (SubmitError.runtime_error stoppedMessage), drainingState) :=
  ⟨rfl, (submit_rejected_after_stop drainingState 5 rfl).2.2.1 rfl⟩

/-- C5 (successful submit): when `stop` is false, the body of `submit` returns without
error, the new queue is the old queue with the task appended at the tail (one longer,
earlier entries unchanged), `stop` and the workers are unchanged; a whole call that finds
the mutex free returns normally in the state that differs only by the appended task; and
a mutex that is owned can always be released by its owner, so the caller is not blocked
for ever. -/
theorem submit_appends (s : State) (t : Task) (hstop : s.stop = false) :
    (submitBody s t).1 = Except.ok () ∧
    (submitBody s t).2.tasks = s.tasks ++ [t] ∧
    (submitBody s t).2.tasks.length = s.tasks.length + 1 ∧
    (∀ j : Nat, j < s.tasks.length → (submitBody s t).2.tasks[j]? = s.tasks[j]?) ∧
    (submitBody s t).2.stop = s.stop ∧
    (submitBody s t).2.workers = s.workers ∧
    (s.queue_mutex = none →
      submit s t = some (Except.ok (),
        { s with tasks := s.tasks ++ [t], accepted := s.accepted ++ [t] })) ∧
    (∀ s1 : State, s.queue_mutex = some (Holder.submitter t) →
      step s Action.submitBody = some s1 →
        s1.tasks = s.tasks ++ [t] ∧ s1.stop = s.stop ∧ s1.workers = s.workers) ∧
    (∀ N : Nat, Reachable N s → s.queue_mutex ≠ none →
      ∃ (a : Action) (s1 : State), step s a = some s1 ∧ s1.queue_mutex = none) := by
  have hb : submitBody s t =
      (Except.ok (),
        { s with tasks := s.tasks ++ [t], queue_mutex := none, accepted := s.accepted ++ [t] }) := by
    simp [submitBody, hstop]
  refine ⟨by rw [hb], by rw [hb], by rw [hb]; simp, ?_, by rw [hb], by rw [hb], ?_, ?_,
    fun N h hm => mutex_release_enabled h hm⟩
  · intro j hj
    rw [hb]
    exact List.getElem?_append_left hj
  · intro hm
    cases s
    simp only at hm hstop
    subst hm
    subst hstop
    simp [submit, submitBody]
  · intro s1 hm hs
    simp only [step, hm, Option.some.injEq] at hs
    subst hs
    rw [hb]
    simp

/-- C5 on a running pool whose queue holds task 9: `submit(5)` appends 5 behind it. -/
theorem submit_appends_witness :
    busyState.stop = false ∧
      submit busyState 5 = some (Except.ok (),
        { busyState with tasks := [9, 5], accepted := [7, 8, 9, 5] }) :=
  ⟨rfl, (submit_appends busyState 5 rfl).2.2.2.2.2.2.1 rfl⟩

/-- A one-worker pool reaches the state in which its worker runs task 7. -/
theorem runningState_reachable : Reachable 1 runningState :=
  reachable_run
    [Action.submitLock 7, Action.submitBody, Action.workerLock 0, Action.workerBody 0]
    (Reachable.init (construct_eq 1 (by decide))) (by decide)

/-- C6 (fault containment): in a reachable state of a pool constructed with `N ≥ 1` workers
where worker `i` is running task `t`, for either kind `k` of thrown value: the throw takes
the worker to the handler with queue and `stop` untouched; the handler, once it gets the
mutex, writes its message and puts the worker back to `waiting`, again with queue and `stop`
untouched; with the mutex free the whole failure path ends in exactly the state a normal
return ends in; no action takes a worker that is running or handling a failure to
`terminated`; the pool still has `N` workers; and whenever the destructor has returned, exactly `N` workers are terminated
and every accepted task has been executed. -/
theorem fault_containment (N : Nat) (s : State) (i : Nat) (t : Task) (k : ExcKind)
    (hN : 1 ≤ N) (h : Reachable N s) (hrun : s.workers[i]? = some (Worker.running t)) :
    step s (Action.taskThrow i k) =
      some { s with workers := s.workers.set i (Worker.caught k),
                    finished := s.finished ++ [t] } ∧
    (∀ u : State, u.workers[i]? = some (Worker.caught k) → u.queue_mutex = none →
      step u (Action.catchLock i) =
        some { u with workers := u.workers.set i (Worker.logging k),
                      queue_mutex := some (Holder.worker i) }) ∧
    (∀ u : State, u.workers[i]? = some (Worker.logging k) →
      step u (Action.catchLog i) =
        some { u with workers := u.workers.set i Worker.waiting, queue_mutex := none }) ∧
    step s (Action.taskReturn i) =
      some { s with workers := s.workers.set i Worker.waiting,
                    finished := s.finished ++ [t] } ∧
    (s.queue_mutex = none →
      run s [Action.taskThrow i k, Action.catchLock i, Action.catchLog i] =
        step s (Action.taskReturn i)) ∧
    (∀ (u u1 : State) (a : Action) (j : Nat), step u a = some u1 →
      ((∃ t1 : Task, u.workers[j]? = some (Worker.running t1)) ∨
        (∃ k1 : ExcKind, u.workers[j]? = some (Worker.caught k1)) ∨
        (∃ k1 : ExcKind, u.workers[j]? = some (Worker.logging k1))) →
      u1.workers[j]? ≠ some Worker.terminated) ∧
    (s.workers.set i (Worker.caught k)).length = N ∧
    (∀ u : State, Reachable N u → u.dtor = Dtor.returned →
      terminatedCount u.workers = N ∧ u.finished.Perm u.accepted) := by
  have hi : i < s.workers.length := lt_of_getElem? hrun
  refine ⟨?_, ?_, ?_, ?_, ?_, ?_, ?_, ?_⟩
  · simp [step, hrun]
  · intro u hu hm
    simp [step, hu, hm]
  · intro u hu
    simp [step, hu]
  · simp [step, hrun]
  · intro hm
    simp [run, step, hrun, hm, hi, List.getElem?_set_self, List.set_set]
  · intro u u1 a j hs hw hterm
    rcases terminates_only_from_locked hs hterm with h1 | ⟨_, h1, _⟩
    · rcases hw with ⟨t1, h2⟩ | ⟨k1, h2⟩ | ⟨k1, h2⟩ <;> rw [h1] at h2 <;> simp at h2
    · rcases hw with ⟨t1, h2⟩ | ⟨k1, h2⟩ | ⟨k1, h2⟩ <;> rw [h1] at h2 <;> simp at h2
  · rw [List.length_set]
    exact (inv_reachable h).1
  · intro u hu hret
    exact (returned_all_done hN hu hret).2.2

/-- C6 on a one-worker pool running task 7, which throws a value that is not a `std::exception`. -/
theorem fault_containment_witness :
    Reachable 1 runningState ∧
      run runningState
          [Action.taskThrow 0 ExcKind.unknown, Action.catchLock 0, Action.catchLog 0] =
        step runningState (Action.taskReturn 0) ∧
      step runningState (Action.taskReturn 0) =
        some { runningState with workers := [Worker.waiting], finished := [7] } :=
  ⟨runningState_reachable,
    (fault_containment 1 runningState 0 7 ExcKind.unknown (by decide) runningState_reachable
      rfl).2.2.2.2.1 rfl,
    (fault_containment 1 runningState 0 7 ExcKind.unknown (by decide) runningState_reachable
      rfl).2.2.2.1⟩

/-- C7, amended: the constructor rejects no worker count.  For every `ThreadCount` up to
`INT_MAX` (the range of the loop counter `int i`), zero included, construction succeeds
with exactly `ThreadCount` workers, all at the top of their loop, an empty queue, `stop`
false and the mutex free; there is no configuration error. -/
theorem construct_succeeds (ThreadCount : Nat) (hN : ThreadCount ≤ INT_MAX) :
    ∃ s : State, construct ThreadCount = some s ∧
      s.workers = List.replicate ThreadCount Worker.waiting ∧
      s.workers.length = ThreadCount ∧ s.tasks = [] ∧ s.stop = false ∧
      s.queue_mutex = none ∧ s.dtor = Dtor.alive := by
  refine ⟨fresh ThreadCount, construct_eq ThreadCount hN, rfl, ?_, rfl, rfl, rfl, rfl⟩
  simp [fresh]

/-- C7, amended, for four workers. -/
theorem construct_succeeds_witness :
    4 ≤ INT_MAX ∧ ∃ s : State, construct 4 = some s ∧
      s.workers = List.replicate 4 Worker.waiting ∧
      s.workers.length = 4 ∧ s.tasks = [] ∧ s.stop = false ∧
      s.queue_mutex = none ∧ s.dtor = Dtor.alive :=
  ⟨by decide, construct_succeeds 4 (by decide)⟩

/-- C7 as stated fails: constructing with worker count 0 does not fail; it returns a pool
with no workers, an empty queue and `stop` false. -/
theorem construct_zero_not_rejected :
    construct 0 =
        some { workers := [], tasks := [], stop := false, queue_mutex := none,
               dtor := Dtor.alive, accepted := [], dequeued := [], finished := [] } ∧
      construct 0 ≠ none := by
  have h : construct 0 = some (fresh 0) := by
    unfold construct
    rw [spawnLoop]
    simp [fresh]
  exact ⟨h, by rw [h]; simp⟩

/-- C8 (worker step function): for every state in which worker `i` owns the mutex at
lines 11-18, the step is defined and (i) with `stop` false and the queue empty the worker
goes back to waiting and nothing else changes but the released mutex; (ii) with `stop` true
and the queue empty the worker terminates and the queue is unchanged; (iii) with a non-empty
queue, whatever `stop` is, the worker removes exactly the head, keeps the rest in order,
leaves `stop` unchanged and runs that task.  A live worker becomes terminated by an action
if and only if that action is its own step under the lock observing `stop` true and the
queue empty; a terminated worker stays terminated and can neither take the mutex nor
dequeue. -/
theorem worker_step (s : State) (i : Nat) (hlocked : s.workers[i]? = some Worker.locked) :
    (∃ s1 : State, step s (Action.workerBody i) = some s1) ∧
    (s.stop = false → s.tasks = [] →
      step s (Action.workerBody i) =
        some { s with workers := s.workers.set i Worker.waiting, queue_mutex := none }) ∧
    (s.stop = true → s.tasks = [] →
      step s (Action.workerBody i) =
        some { s with workers := s.workers.set i Worker.terminated, queue_mutex := none }) ∧
    (∀ (t : Task) (rest : List Task), s.tasks = t :: rest →
      step s (Action.workerBody i) =
        some { s with workers := s.workers.set i (Worker.running t), tasks := rest,
                      queue_mutex := none, dequeued := s.dequeued ++ [t] }) ∧
    (∀ (u u1 : State) (a : Action) (j : Nat), step u a = some u1 →
      u.workers[j]? ≠ some Worker.terminated →
      (u1.workers[j]? = some Worker.terminated ↔
        (a = Action.workerBody j ∧ u.workers[j]? = some Worker.locked ∧
          u.stop = true ∧ u.tasks = []))) ∧
    (∀ (u : State) (j : Nat), u.workers[j]? = some Worker.terminated →
      step u (Action.workerLock j) = none ∧ step u (Action.workerBody j) = none ∧
      ∀ (a : Action) (u1 : State), step u a = some u1 →
        u1.workers[j]? = some Worker.terminated ∧
        (u1.dequeued ≠ u.dequeued → ∃ j1 : Nat, j1 ≠ j ∧ a = Action.workerBody j1)) := by
  have hstep : ∀ (t : Task) (rest : List Task), s.tasks = t :: rest →
      step s (Action.workerBody i) =
        some { s with workers := s.workers.set i (Worker.running t), tasks := rest,
                      queue_mutex := none, dequeued := s.dequeued ++ [t] } := by
    intro t rest ht
    simp [step, hlocked, workerBody, waitPredicate, ht]
  have hempty : s.tasks = [] → ∃ s1 : State, step s (Action.workerBody i) = some s1 := by
    intro he
    cases hst : s.stop <;> simp [step, hlocked, workerBody, waitPredicate, he, hst]
  refine ⟨?_, ?_, ?_, hstep, ?_, ?_⟩
  · cases ht : s.tasks with
    | nil => exact hempty ht
    | cons t rest => exact ⟨_, hstep t rest ht⟩
  · intro hst he
    simp [step, hlocked, workerBody, waitPredicate, he, hst]
  · intro hst he
    simp [step, hlocked, workerBody, waitPredicate, he, hst]
  · intro u u1 a j hs hlive
    constructor
    · intro hterm
      rcases terminates_only_from_locked hs hterm with h1 | h1
      · exact absurd h1 hlive
      · exact h1
    · rintro ⟨rfl, hl, hst, he⟩
      have hj : j < u.workers.length := lt_of_getElem? hl
      simp [step, hl, workerBody, waitPredicate, he, hst] at hs
      subst hs
      simp [hj]
  · intro u j hterm
    refine ⟨by simp [step, hterm], by simp [step, hterm], ?_⟩
    intro a u1 hs
    refine ⟨terminated_stays hs hterm, ?_⟩
    intro hdq
    cases a <;> simp only [step, submitBody, workerBody, waitPredicate] at hs <;>
      (repeat' split at hs) <;>
      simp only [Option.some.injEq, reduceCtorEq] at hs <;>
      subst hs <;>
      first
        | exact absurd rfl hdq
        | (refine ⟨_, ?_, rfl⟩
           intro e
           subst e
           simp_all)

/-- C8 on a state with tasks 7 and 8 queued: the worker removes 7 and runs it. -/
theorem worker_step_witness :
    lockedState.workers[0]? = some Worker.locked ∧
      step lockedState (Action.workerBody 0) =
        some { lockedState with workers := [Worker.running 7], tasks := [8],
                                queue_mutex := none, dequeued := [7] } :=
  ⟨rfl, (worker_step lockedState 0 rfl).2.2.2.1 7 [8] rfl⟩

/-- A one-worker pool reaches the state in which its worker logs a failure under the mutex. -/
theorem loggingState_reachable : Reachable 1 loggingState :=
  reachable_run
    [Action.submitLock 7, Action.submitBody, Action.workerLock 0, Action.workerBody 0,
     Action.taskThrow 0 ExcKind.stdException, Action.catchLock 0]
    (Reachable.init (construct_eq 1 (by decide))) (by decide)

/-- C9 as stated fails: in a reachable state of a one-worker pool the worker owns
`queue_mutex` while it is in the catch handler writing to `std::cerr`, which is neither a
queue push, a queue pop, nor a check or set of `stop` and queue emptiness. -/
theorem lock_held_for_logging :
    Reachable 1 loggingState ∧
      loggingState.queue_mutex = some (Holder.worker 0) ∧
      loggingState.workers[0]? = some (Worker.logging ExcKind.stdException) ∧
      loggingState.workers[0]? ≠ some Worker.locked :=
  ⟨loggingState_reachable, rfl, rfl, by decide⟩

/-- C9, amended: in every reachable state, worker `i` owns `queue_mutex` exactly when it is
in its critical section of lines 10-18 (predicate check, pop) or in a catch handler writing
its message (lines 24-25, 28-29); the destructor owns it exactly when it is at line 53-54
setting `stop`; the only other owner is a caller inside `submit`; and no worker owns the
mutex while its task body is executing. -/
theorem lock_discipline (N : Nat) (s : State) (h : Reachable N s) :
    (∀ i : Nat, s.queue_mutex = some (Holder.worker i) ↔
      (s.workers[i]? = some Worker.locked ∨
        ∃ k : ExcKind, s.workers[i]? = some (Worker.logging k))) ∧
    (s.queue_mutex = some Holder.destructor ↔ s.dtor = Dtor.locked) ∧
    (∀ (i : Nat) (t : Task), s.workers[i]? = some (Worker.running t) →
      s.queue_mutex ≠ some (Holder.worker i)) := by
  obtain ⟨_, _, _, _, _, h1, h0, h2⟩ := inv_reachable h
  refine ⟨fun i => ⟨fun hm => ?_, fun hw => ?_⟩, h2, fun i t hw hm => ?_⟩
  · have hi := h0 i hm
    have hw : s.workers[i]? = some s.workers[i] := List.getElem?_eq_getElem hi
    have h3 := (h1 i _ hw).mpr hm
    cases hwi : s.workers[i] with
    | locked => left; rw [hw, hwi]
    | logging k => right; exact ⟨k, by rw [hw, hwi]⟩
    | waiting => rw [hwi] at h3; simp [holdsLock] at h3
    | running t => rw [hwi] at h3; simp [holdsLock] at h3
    | caught k => rw [hwi] at h3; simp [holdsLock] at h3
    | terminated => rw [hwi] at h3; simp [holdsLock] at h3
  · rcases hw with hw | ⟨k, hw⟩
    · exact (h1 i _ hw).mp rfl
    · exact (h1 i _ hw).mp rfl
  · have := (h1 i _ hw).mpr hm
    simp [holdsLock] at this

/-- C9, amended, on a state in which worker 1 is running a task. -/
theorem lock_discipline_witness :
    Reachable 2 busyState ∧
      ∀ (i : Nat) (t : Task), busyState.workers[i]? = some (Worker.running t) →
        busyState.queue_mutex ≠ some (Holder.worker i) :=
  ⟨busyState_reachable, (lock_discipline 2 busyState busyState_reachable).2.2⟩

/-- C10 (the stop flag is monotonic): construction produces `stop = false`; no action of
the pool (the two halves of `submit`, every worker action including a task returning or
throwing and the handlers, the actions of the destructor) takes `stop` from true to false; an
action that changes `stop` is the assignment of line 54 in the destructor and changes it from
false to true; and the body of `submit` returns with `stop` as it found it. -/
theorem stop_monotonic (s s1 : State) (a : Action) (hs : step s a = some s1) :
    (s.stop = true → s1.stop = true) ∧
    (s1.stop ≠ s.stop → a = Action.dtorSet ∧ s.stop = false ∧ s1.stop = true) ∧
    (∀ t : Task, (submitBody s t).2.stop = s.stop) ∧
    (∀ (N : Nat) (s0 : State), construct N = some s0 → s0.stop = false) := by
  have hsub : ∀ t : Task, (submitBody s t).2.stop = s.stop := by
    intro t
    unfold submitBody
    split <;> rfl
  have hinit : ∀ (N : Nat) (s0 : State), construct N = some s0 → s0.stop = false := by
    intro N s0 h0
    rw [construct_workers h0]
    rfl
  refine ⟨?_, ?_, hsub, hinit⟩
  · intro hst
    cases a <;> simp only [step, submitBody, workerBody, waitPredicate] at hs <;>
      (repeat' split at hs) <;>
      simp only [Option.some.injEq, reduceCtorEq] at hs <;>
      subst hs <;>
      first
        | exact hst
        | rfl
  · intro hne
    cases a <;> simp only [step, submitBody, workerBody, waitPredicate] at hs <;>
      (repeat' split at hs) <;>
      simp only [Option.some.injEq, reduceCtorEq] at hs <;>
      subst hs <;>
      first
        | exact absurd rfl hne
        | (refine ⟨rfl, ?_, rfl⟩
           cases hst : s.stop
           · rfl
           · exact absurd hst.symm (by simpa using hne))

/-- C10 on the destructor step that sets `stop`. -/
theorem stop_monotonic_witness :
    step dtorLockedState Action.dtorSet =
        some { dtorLockedState with stop := true, queue_mutex := none,
                                    dtor := Dtor.joining 0 } ∧
      (true ≠ dtorLockedState.stop →
        Action.dtorSet = Action.dtorSet ∧ dtorLockedState.stop = false ∧ true = true) :=
  ⟨rfl, (stop_monotonic dtorLockedState
    { dtorLockedState with stop := true, queue_mutex := none, dtor := Dtor.joining 0 }
    Action.dtorSet rfl).2.1⟩

end ThreadPool
